import Mathlib

/-!
# PSD estimator (src/src/Measurements/Psd.cpp) — shallow embedding

Verification of the streaming Power Spectral Density estimator
`Measurements::PSD` against its specification.

Modelling conventions:
* C++ `double` arithmetic is embedded as exact rational arithmetic (`ℚ`);
  the claims under study are structural/algebraic properties of the
  computation chain, not rounding-error bounds.
* The fixed global bin array `_bins` (and sample pointers) are embedded as
  total functions `Nat → ℚ` / `Nat → ℤ`: a C pointer gives access to every
  index, and the loops of the source decide which indices are touched.
* The external `arduinoFFT` library (windowing + forward transform +
  complex-to-magnitude, operating in place on `vReal`/`vImag`) is out of
  scope per the spec; it is embedded as an abstract pure function
  `engine : List ℚ → List ℚ` from the `sampleCount` DC-removed samples to
  the `sampleCount` magnitudes, exactly as the spec describes the
  Transform Engine.
* Each `for (idx = 0; idx < n; idx++) buf[idx] = ...` loop of the source is
  embedded by the generic `forLoop` recursion below, which performs the
  in-place writes in index order.
-/

namespace Measurements

/-- Generic embedding of the source's in-place loops
`for (idx = 0; idx < n; idx++) buf[idx] = g(idx, buf[idx])`. -/
def forLoop (g : Nat → ℚ → ℚ) (buf : Nat → ℚ) : Nat → (Nat → ℚ)
  | 0 => buf
  | n + 1 =>
    let b := forLoop g buf n
    Function.update b n (g n (b n))

/-- Truncation toward zero, the semantics of C++ `static_cast` from a
floating-point value to an integer type. -/
def truncQ (q : ℚ) : ℤ :=
  if 0 ≤ q then ⌊q⌋ else ⌈q⌉

/-- Embedding of the summation loop of `getAverage`
(`double sum = 0; for (...) sum += elements[idx];`): the `int16_t` samples
are added into a `double` accumulator, exactly. -/
def sumLoop (samples : Nat → ℤ) : Nat → ℚ
  | 0 => 0
  | n + 1 => sumLoop samples n + (samples n : ℚ)

/-- Embedding of `getAverage<int16_t>`: the `double` sum is divided by the
count and the result is cast back (`static_cast<T>`, truncation toward
zero) to the integer sample type. -/
def getAverage (samples : Nat → ℤ) (count : Nat) : ℤ :=
  truncQ (sumLoop samples count / (count : ℚ))

/-- Coefficient for Hamming window correction (`windowCorrection = 1.59`). -/
def windowCorrection : ℚ := 159 / 100

/-- The PSD estimator's state: configuration (`_sampleCount`,
`_sampleFrequency`), segment counter (`_segmentCount`) and the bin
accumulator array (`_bins`). -/
structure PSDState where
  sampleCount : Nat
  sampleFrequency : Nat
  segmentCount : Nat
  bins : Nat → ℚ

namespace PSD

/-- Embedding of `PSD::setup`: store the configuration and reset the
segment counter; the bins are not touched. -/
def setup (s : PSDState) (sampleCount sampleFrequency : Nat) : PSDState :=
  { s with
    sampleCount := sampleCount
    sampleFrequency := sampleFrequency
    segmentCount := 0 }

/-- Embedding of `PSD::clear`: zero the first `_sampleCount` bins. -/
def clear (s : PSDState) : PSDState :=
  { s with bins := forLoop (fun _ _ => 0) s.bins s.sampleCount }

/-- The per-bin power contribution of one segment
(`double bin = vReal[idx] * vReal[idx] / _sampleFrequency / _sampleCount;
if (idx > 0) bin *= 2;`), where `m` is the magnitude at this bin. -/
def binPower (sampleFrequency sampleCount : Nat) (m : ℚ) (idx : Nat) : ℚ :=
  let bin := m * m / (sampleFrequency : ℚ) / (sampleCount : ℚ)
  if 0 < idx then bin * 2 else bin

/-- The DC-removed real signal handed to the Transform Engine
(`vReal[idx] = samples[idx] - average;` for `idx < _sampleCount`). -/
def dcValues (samples : Nat → ℤ) (average : ℤ) (n : Nat) : List ℚ :=
  (List.range n).map fun i => ((samples i - average : ℤ) : ℚ)

/-- Embedding of `PSD::computeSegment`: lazily clear when the counter is 0,
remove the (truncated) mean, run the Transform Engine on the DC-removed
segment, accumulate each bin's power, and increment the counter. -/
def computeSegment (engine : List ℚ → List ℚ) (s : PSDState)
    (samples : Nat → ℤ) : PSDState :=
  let s1 := if s.segmentCount = 0 then clear s else s
  let average := getAverage samples s1.sampleCount
  let mags := engine (dcValues samples average s1.sampleCount)
  { s1 with
    bins := forLoop
      (fun idx b =>
        b + binPower s1.sampleFrequency s1.sampleCount (mags.getD idx 0) idx)
      s1.bins s1.sampleCount
    segmentCount := s1.segmentCount + 1 }

/-- Embedding of `PSD::getResult`: when segments are pending, replace each
bin by its average over the segments scaled by the squared window
correction and reset the counter; otherwise change nothing. -/
def getResult (s : PSDState) : PSDState :=
  if 0 < s.segmentCount then
    { s with
      bins := forLoop
        (fun _ b => b / (s.segmentCount : ℚ) * windowCorrection * windowCorrection)
        s.bins s.sampleCount
      segmentCount := 0 }
  else s

end PSD

/-- Pointwise evaluation of the loop embedding: index `i` holds `g i` of
the old value when `i` was visited, and the old value otherwise. -/
theorem forLoop_eval (g : Nat → ℚ → ℚ) (buf : Nat → ℚ) (n i : Nat) :
    forLoop g buf n i = if i < n then g i (buf i) else buf i := by
  induction n with
  | zero => simp [forLoop]
  | succ n ih =>
    simp only [forLoop]
    rcases eq_or_ne i n with rfl | hne
    · simp [Function.update, ih]
    · rw [Function.update_noteq hne, ih]
      rcases lt_trichotomy i n with h | h | h
      · simp [h, Nat.lt_succ_of_lt h]
      · exact absurd h hne
      · rw [if_neg (Nat.not_lt.mpr (le_of_lt h)),
          if_neg (Nat.not_lt.mpr (Nat.succ_le_of_lt h))]

/-- `clear` zeroes exactly the first `sampleCount` bins. -/
theorem clear_bins (s : PSDState) (i : Nat) :
    (PSD.clear s).bins i = if i < s.sampleCount then 0 else s.bins i :=
  forLoop_eval _ s.bins s.sampleCount i

theorem clear_sampleCount (s : PSDState) :
    (PSD.clear s).sampleCount = s.sampleCount := rfl

theorem clear_sampleFrequency (s : PSDState) :
    (PSD.clear s).sampleFrequency = s.sampleFrequency := rfl

theorem clear_segmentCount (s : PSDState) :
    (PSD.clear s).segmentCount = s.segmentCount := rfl

/-- With a zero counter, `getResult` is the identity on the state. -/
theorem getResult_of_idle (s : PSDState) (h : s.segmentCount = 0) :
    PSD.getResult s = s := by
  unfold PSD.getResult
  rw [if_neg (by omega)]

/-- After any `getResult` call the segment counter is zero. -/
theorem getResult_segmentCount (s : PSDState) :
    (PSD.getResult s).segmentCount = 0 := by
  unfold PSD.getResult
  split
  · rfl
  · omega

/-- The state `computeSegment` sees when it starts its accumulation loop:
the input state, lazily cleared when the counter is zero. -/
def preAccum (s : PSDState) : PSDState :=
  if s.segmentCount = 0 then PSD.clear s else s

theorem preAccum_sampleCount (s : PSDState) :
    (preAccum s).sampleCount = s.sampleCount := by
  unfold preAccum; split <;> rfl

theorem preAccum_sampleFrequency (s : PSDState) :
    (preAccum s).sampleFrequency = s.sampleFrequency := by
  unfold preAccum; split <;> rfl

theorem preAccum_segmentCount (s : PSDState) :
    (preAccum s).segmentCount = s.segmentCount := by
  unfold preAccum; split <;> rfl

/-- `computeSegment` unfolded through `preAccum`. -/
theorem computeSegment_def (engine : List ℚ → List ℚ) (s : PSDState)
    (samples : Nat → ℤ) :
    PSD.computeSegment engine s samples
      = { preAccum s with
          bins := forLoop
            (fun idx b =>
              b + PSD.binPower (preAccum s).sampleFrequency (preAccum s).sampleCount
                ((engine (PSD.dcValues samples
                  (getAverage samples (preAccum s).sampleCount)
                  (preAccum s).sampleCount)).getD idx 0) idx)
            (preAccum s).bins (preAccum s).sampleCount
          segmentCount := (preAccum s).segmentCount + 1 } := rfl

theorem computeSegment_sampleCount (engine : List ℚ → List ℚ) (s : PSDState)
    (samples : Nat → ℤ) :
    (PSD.computeSegment engine s samples).sampleCount = s.sampleCount := by
  rw [computeSegment_def]
  exact preAccum_sampleCount s

theorem computeSegment_sampleFrequency (engine : List ℚ → List ℚ)
    (s : PSDState) (samples : Nat → ℤ) :
    (PSD.computeSegment engine s samples).sampleFrequency
      = s.sampleFrequency := by
  rw [computeSegment_def]
  exact preAccum_sampleFrequency s

theorem computeSegment_segmentCount (engine : List ℚ → List ℚ) (s : PSDState)
    (samples : Nat → ℤ) :
    (PSD.computeSegment engine s samples).segmentCount
      = s.segmentCount + 1 := by
  rw [computeSegment_def]
  simp only [preAccum_segmentCount]

/-- Pointwise value of the accumulation loop of `computeSegment`. -/
theorem computeSegment_bins (engine : List ℚ → List ℚ) (s : PSDState)
    (samples : Nat → ℤ) (i : Nat) :
    (PSD.computeSegment engine s samples).bins i
      = if i < s.sampleCount then
          (preAccum s).bins i
            + PSD.binPower s.sampleFrequency s.sampleCount
              ((engine (PSD.dcValues samples (getAverage samples s.sampleCount)
                s.sampleCount)).getD i 0) i
        else (preAccum s).bins i := by
  rw [computeSegment_def]
  simp only [preAccum_sampleCount, preAccum_sampleFrequency]
  exact forLoop_eval _ _ s.sampleCount i

/-! ## Concrete inputs used by the witnesses and counterexamples -/

/-- A concrete Transform Engine instance (the identity map on the
DC-removed samples), used only to instantiate theorems on closed inputs. -/
def idEngine : List ℚ → List ℚ := fun l => l

def w1state : PSDState :=
  { sampleCount := 2, sampleFrequency := 4, segmentCount := 2, bins := fun _ => 6 }

/-! ## Claims -/

/-- C1: with a positive segment counter, `getResult` replaces each of the
first `sampleCount` bins by the accumulated sum divided by the counter and
multiplied by the square of the window-correction constant 1.59, and sets
the counter to 0; with a zero counter it leaves the whole state (every bin
entry and the counter) unchanged. -/
theorem getResult_finalizes (s : PSDState) :
    (0 < s.segmentCount →
      (∀ i, i < s.sampleCount →
        (PSD.getResult s).bins i
          = s.bins i / (s.segmentCount : ℚ)
            * (windowCorrection * windowCorrection))
      ∧ (PSD.getResult s).segmentCount = 0)
    ∧ (s.segmentCount = 0 → PSD.getResult s = s) := by
  constructor
  · intro hpos
    refine ⟨fun i hi => ?_, getResult_segmentCount s⟩
    unfold PSD.getResult
    rw [if_pos hpos]
    show forLoop _ s.bins s.sampleCount i = _
    rw [forLoop_eval, if_pos hi, mul_assoc]
  · exact getResult_of_idle s

theorem getResult_finalizes_witness :
    (0 < w1state.segmentCount
      ∧ (PSD.getResult w1state).bins 0
          = w1state.bins 0 / (w1state.segmentCount : ℚ)
            * (windowCorrection * windowCorrection)
      ∧ (PSD.getResult w1state).segmentCount = 0)
    ∧ (PSD.getResult (PSD.getResult w1state)
        = PSD.getResult w1state) := by
  have h := getResult_finalizes w1state
  have h2 := getResult_finalizes (PSD.getResult w1state)
  exact ⟨⟨by decide, (h.1 (by decide)).1 0 (by decide), (h.1 (by decide)).2⟩,
    h2.2 (by decide)⟩

def w2state : PSDState :=
  { sampleCount := 1, sampleFrequency := 1, segmentCount := 0, bins := fun _ => 0 }

def w2samples : Nat → ℤ := fun _ => 3

/-- C2: on each `computeSegment` call, the value added to accumulator
entry `i < sampleCount` is `magnitude[i]^2 / sampleFrequency / sampleCount`
— doubled exactly when `i > 0` — where the magnitude is the Transform
Engine's output on the windowed, DC-removed segment; and the segment
counter is incremented by exactly 1. -/
theorem computeSegment_adds_power (engine : List ℚ → List ℚ) (s : PSDState)
    (samples : Nat → ℤ) (i : Nat) (hi : i < s.sampleCount) :
    ((PSD.computeSegment engine s samples).bins i
      = (preAccum s).bins i
        + (let m := (engine (PSD.dcValues samples
            (getAverage samples s.sampleCount) s.sampleCount)).getD i 0
           if 0 < i then
             m * m / (s.sampleFrequency : ℚ) / (s.sampleCount : ℚ) * 2
           else m * m / (s.sampleFrequency : ℚ) / (s.sampleCount : ℚ)))
    ∧ (PSD.computeSegment engine s samples).segmentCount
        = s.segmentCount + 1 := by
  refine ⟨?_, computeSegment_segmentCount engine s samples⟩
  rw [computeSegment_bins, if_pos hi]
  rfl

theorem computeSegment_adds_power_witness :
    0 < w2state.sampleCount
      ∧ (((PSD.computeSegment idEngine w2state w2samples).bins 0
          = (preAccum w2state).bins 0
            + (let m := (idEngine (PSD.dcValues w2samples
                (getAverage w2samples w2state.sampleCount)
                w2state.sampleCount)).getD 0 0
               if 0 < (0 : Nat) then
                 m * m / (w2state.sampleFrequency : ℚ)
                   / (w2state.sampleCount : ℚ) * 2
               else m * m / (w2state.sampleFrequency : ℚ)
                 / (w2state.sampleCount : ℚ)))
        ∧ (PSD.computeSegment idEngine w2state w2samples).segmentCount
            = w2state.segmentCount + 1) :=
  ⟨by decide, computeSegment_adds_power idEngine w2state w2samples 0 (by decide)⟩

def w3idle : PSDState :=
  { sampleCount := 2, sampleFrequency := 1, segmentCount := 0, bins := fun _ => 9 }

def w3busy : PSDState :=
  { sampleCount := 2, sampleFrequency := 1, segmentCount := 1, bins := fun _ => 9 }

def w3samples : Nat → ℤ := fun i => if i = 0 then 1 else 3

/-- C3: when the segment counter is 0, `computeSegment` lazily clears the
first `sampleCount` accumulator entries before accumulating, so each new
bin value equals exactly the current segment's contribution, independent
of any stale prior contents; when the counter is positive no clearing
happens and the contribution is added onto the existing sums. -/
theorem computeSegment_lazy_reset (engine : List ℚ → List ℚ) (s : PSDState)
    (samples : Nat → ℤ) (i : Nat) (hi : i < s.sampleCount) :
    (s.segmentCount = 0 →
      (PSD.computeSegment engine s samples).bins i
        = PSD.binPower s.sampleFrequency s.sampleCount
            ((engine (PSD.dcValues samples (getAverage samples s.sampleCount)
              s.sampleCount)).getD i 0) i)
    ∧ (0 < s.segmentCount →
      (PSD.computeSegment engine s samples).bins i
        = s.bins i
          + PSD.binPower s.sampleFrequency s.sampleCount
              ((engine (PSD.dcValues samples (getAverage samples s.sampleCount)
                s.sampleCount)).getD i 0) i) := by
  constructor
  · intro h0
    rw [computeSegment_bins, if_pos hi]
    unfold preAccum
    rw [if_pos h0, clear_bins, if_pos hi, zero_add]
  · intro hpos
    rw [computeSegment_bins, if_pos hi]
    unfold preAccum
    rw [if_neg (by omega)]

theorem computeSegment_lazy_reset_witness :
    ((PSD.computeSegment idEngine w3idle w3samples).bins 0
      = PSD.binPower w3idle.sampleFrequency w3idle.sampleCount
          ((idEngine (PSD.dcValues w3samples
            (getAverage w3samples w3idle.sampleCount)
            w3idle.sampleCount)).getD 0 0) 0)
    ∧ ((PSD.computeSegment idEngine w3busy w3samples).bins 0
      = w3busy.bins 0
        + PSD.binPower w3busy.sampleFrequency w3busy.sampleCount
            ((idEngine (PSD.dcValues w3samples
              (getAverage w3samples w3busy.sampleCount)
              w3busy.sampleCount)).getD 0 0) 0) :=
  ⟨(computeSegment_lazy_reset idEngine w3idle w3samples 0 (by decide)).1 rfl,
   (computeSegment_lazy_reset idEngine w3busy w3samples 0 (by decide)).2
     (by decide)⟩

/-- C4: `setup` performs no validation at all: an invalid configuration
(`sampleCount = 0`, outside `[1, samplesCountMax]`, and
`sampleFrequency = 0`) is stored verbatim as the active configuration with
no error surfaced to the caller, contradicting the specified fail-fast
rejection. -/
theorem setup_stores_invalid_config (s : PSDState) :
    (PSD.setup s 0 0).sampleCount = 0
      ∧ (PSD.setup s 0 0).sampleFrequency = 0
      ∧ (PSD.setup s 0 0).segmentCount = 0
      ∧ (PSD.setup s 0 0).bins = s.bins :=
  ⟨rfl, rfl, rfl, rfl⟩

/-- C6: `getResult` is idempotent: a second call with no intervening
`computeSegment` or `setup` returns exactly the same state (hence exactly
equal accumulator contents) and changes nothing. -/
theorem getResult_idempotent (s : PSDState) :
    PSD.getResult (PSD.getResult s) = PSD.getResult s :=
  getResult_of_idle _ (getResult_segmentCount s)

/-- C8: `setup` stores the two parameters as the active configuration,
forces the segment counter to 0 and leaves every accumulator entry
untouched; a `getResult` issued right after `setup` changes nothing and
returns the stale pre-`setup` accumulator contents. -/
theorem setup_keeps_stale_bins (s : PSDState) (sc sf : Nat) :
    PSD.setup s sc sf
        = { sampleCount := sc, sampleFrequency := sf, segmentCount := 0,
            bins := s.bins }
      ∧ PSD.getResult (PSD.setup s sc sf) = PSD.setup s sc sf
      ∧ (PSD.getResult (PSD.setup s sc sf)).bins = s.bins := by
  refine ⟨rfl, getResult_of_idle _ rfl, ?_⟩
  rw [getResult_of_idle _ rfl]
  rfl

theorem truncQ_intCast (k : ℤ) : truncQ (k : ℚ) = k := by
  unfold truncQ
  split <;> simp

theorem abs_sub_truncQ_lt_one (q : ℚ) : |q - (truncQ q : ℚ)| < 1 := by
  unfold truncQ
  split
  · rw [abs_sub_lt_iff]
    exact ⟨by linarith [Int.lt_floor_add_one q],
      by linarith [Int.floor_le q]⟩
  · rw [abs_sub_lt_iff]
    exact ⟨by linarith [Int.le_ceil q],
      by linarith [Int.ceil_lt_add_one q]⟩

def c5samples : Nat → ℤ := fun i => if i = 0 then 0 else 1

/-- C5 counterexample: for the two-sample segment `(0, 1)` the exact
arithmetic mean is `1/2`, but `getAverage` — instantiated at the integer
sample type — returns the truncated value `0`, and the DC-removed signal
entry handed to the Transform Engine is `1`, not the exact-mean value
`1/2`. -/
theorem dc_estimate_not_exact_mean :
    ((getAverage c5samples 2 : ℤ) : ℚ) ≠ sumLoop c5samples 2 / 2
      ∧ (PSD.dcValues c5samples (getAverage c5samples 2) 2).getD 1 0
          ≠ (c5samples 1 : ℚ) - sumLoop c5samples 2 / 2 := by
  have hsum : sumLoop c5samples 2 = 1 := by
    norm_num [sumLoop, c5samples]
  have havg : getAverage c5samples 2 = 0 := by
    rw [getAverage, hsum]
    unfold truncQ
    rw [if_pos (by norm_num), Int.floor_eq_zero_iff]
    rw [Set.mem_Ico]
    norm_num
  constructor
  · rw [havg, hsum]
    norm_num
  · rw [havg, hsum]
    norm_num [PSD.dcValues, c5samples, List.range_succ]

def w5samples : Nat → ℤ := fun _ => 2

/-- C5 (amended): the mean is accumulated and divided in double precision,
but `getAverage` casts the result back to the integer sample type
(truncation toward zero); the DC estimate subtracted from every sample is
this truncated integer mean — within 1 of the exact mean, and equal to it
exactly when the mean is an integer. -/
theorem dc_estimate_is_truncated_mean (samples : Nat → ℤ) (n : Nat) :
    getAverage samples n = truncQ (sumLoop samples n / (n : ℚ))
      ∧ |sumLoop samples n / (n : ℚ) - (getAverage samples n : ℚ)| < 1
      ∧ ∀ k : ℤ, sumLoop samples n / (n : ℚ) = (k : ℚ) →
          (getAverage samples n : ℚ) = sumLoop samples n / (n : ℚ) := by
  refine ⟨rfl, abs_sub_truncQ_lt_one _, fun k hk => ?_⟩
  rw [getAverage, hk, truncQ_intCast]

theorem dc_estimate_is_truncated_mean_witness :
    getAverage w5samples 3 = truncQ (sumLoop w5samples 3 / 3)
      ∧ |sumLoop w5samples 3 / 3 - (getAverage w5samples 3 : ℚ)| < 1
      ∧ (getAverage w5samples 3 : ℚ) = sumLoop w5samples 3 / 3 :=
  ⟨(dc_estimate_is_truncated_mean w5samples 3).1,
   (dc_estimate_is_truncated_mean w5samples 3).2.1,
   (dc_estimate_is_truncated_mean w5samples 3).2.2 2
     (by norm_num [sumLoop, w5samples])⟩

theorem sumLoop_congr (f g : Nat → ℤ) (n : Nat)
    (h : ∀ i, i < n → f i = g i) : sumLoop f n = sumLoop g n := by
  induction n with
  | zero => rfl
  | succ n ih =>
    unfold sumLoop
    rw [ih fun i hi => h i (Nat.lt_succ_of_lt hi), h n (Nat.lt_succ_self n)]

theorem dcValues_congr (f g : Nat → ℤ) (a : ℤ) (n : Nat)
    (h : ∀ i, i < n → f i = g i) : PSD.dcValues f a n = PSD.dcValues g a n := by
  unfold PSD.dcValues
  refine List.map_congr_left fun i hi => ?_
  rw [h i (List.mem_range.mp hi)]

def c9state : PSDState :=
  { sampleCount := 2, sampleFrequency := 1, segmentCount := 0, bins := fun _ => 0 }

/-- Memory as seen through the sample pointer when the caller supplied a
single-sample segment whose only entry is `0`: index 0 is the segment,
higher indices are whatever lies beyond it. -/
def c9beyondA : Nat → ℤ := fun _ => 0

/-- Same single-sample segment (`0` at index 0) with different contents in
the memory beyond its end. -/
def c9beyondB : Nat → ℤ := fun i => if i = 0 then 0 else 100

/-- C9 counterexample: with configured `sampleCount = 2` and a supplied
segment of one sample, `computeSegment` raises no error and its result
depends on the memory at index 1, past the end of the supplied segment:
the two memories agree on the segment itself yet produce different bins.
The mismatch is neither detected nor rejected — the interface carries no
segment length at all — and the segment is read beyond its end. -/
theorem computeSegment_overruns_short_segment :
    c9beyondA 0 = c9beyondB 0
      ∧ (PSD.computeSegment idEngine c9state c9beyondA).bins 1
          ≠ (PSD.computeSegment idEngine c9state c9beyondB).bins 1 := by
  refine ⟨rfl, ?_⟩
  rw [computeSegment_bins, computeSegment_bins]
  simp only [show c9state.sampleCount = 2 from rfl,
    show c9state.sampleFrequency = 1 from rfl]
  rw [if_pos (by norm_num), if_pos (by norm_num)]
  have hA : getAverage c9beyondA 2 = 0 := by
    rw [getAverage]
    norm_num [sumLoop, c9beyondA, truncQ]
  have hB : getAverage c9beyondB 2 = 50 := by
    rw [getAverage]
    have hs : sumLoop c9beyondB 2 = 100 := by
      norm_num [sumLoop, c9beyondB]
    rw [hs]
    norm_num [truncQ]
  rw [hA, hB]
  norm_num [PSD.binPower, PSD.dcValues, idEngine, preAccum,
    clear_bins, c9beyondA, c9beyondB, List.range_succ, c9state]

def w9state : PSDState :=
  { sampleCount := 1, sampleFrequency := 2, segmentCount := 0, bins := fun _ => 0 }

def w9long : Nat → ℤ := fun i => if i = 0 then 4 else 11

/-- C9 (amended): `computeSegment` receives only a bare sample pointer —
no segment length — so a length mismatch cannot be detected or rejected;
the code unconditionally reads exactly the configured `sampleCount`
samples, so its result depends only on the first `sampleCount` entries
seen through the pointer: a longer segment is silently truncated to them
and a shorter one is read beyond its end. -/
theorem computeSegment_reads_configured_count (engine : List ℚ → List ℚ)
    (s : PSDState) (f g : Nat → ℤ)
    (h : ∀ i, i < s.sampleCount → f i = g i) :
    PSD.computeSegment engine s f = PSD.computeSegment engine s g := by
  have hn : (preAccum s).sampleCount = s.sampleCount := preAccum_sampleCount s
  have h' : ∀ i, i < (preAccum s).sampleCount → f i = g i := by
    rw [hn]; exact h
  have h1 : getAverage f (preAccum s).sampleCount
      = getAverage g (preAccum s).sampleCount := by
    unfold getAverage
    rw [sumLoop_congr f g _ h']
  have h2 : PSD.dcValues f (getAverage f (preAccum s).sampleCount)
        (preAccum s).sampleCount
      = PSD.dcValues g (getAverage g (preAccum s).sampleCount)
        (preAccum s).sampleCount := by
    rw [h1]
    exact dcValues_congr f g _ _ h'
  rw [computeSegment_def, computeSegment_def, h2]

theorem computeSegment_reads_configured_count_witness :
    PSD.computeSegment idEngine w9state (fun _ => 4)
      = PSD.computeSegment idEngine w9state w9long :=
  computeSegment_reads_configured_count idEngine w9state (fun _ => 4) w9long
    (fun i hi => by
      have h0 : i = 0 := by
        have : w9state.sampleCount = 1 := rfl
        omega
      subst h0
      rfl)

/-- The three operations available on an active configuration (the ones
that traverse the bins: `clear`, `computeSegment`, `getResult`). -/
inductive Op where
  | clearOp : Op
  | computeOp : (Nat → ℤ) → Op
  | resultOp : Op

/-- Run one operation on the estimator state. -/
def runOp (engine : List ℚ → List ℚ) (s : PSDState) : Op → PSDState
  | Op.clearOp => PSD.clear s
  | Op.computeOp samples => PSD.computeSegment engine s samples
  | Op.resultOp => PSD.getResult s

/-- Run a sequence of operations on the estimator state. -/
def runOps (engine : List ℚ → List ℚ) : PSDState → List Op → PSDState
  | s, [] => s
  | s, op :: rest => runOps engine (runOp engine s op) rest

/-- Pointwise value of `getResult`'s finalization loop. -/
theorem getResult_bins (s : PSDState) (i : Nat) :
    (PSD.getResult s).bins i
      = if 0 < s.segmentCount ∧ i < s.sampleCount then
          s.bins i / (s.segmentCount : ℚ) * windowCorrection * windowCorrection
        else s.bins i := by
  unfold PSD.getResult
  split
  · next hpos =>
    show forLoop _ s.bins s.sampleCount i = _
    rw [forLoop_eval]
    by_cases hi : i < s.sampleCount
    · rw [if_pos hi, if_pos ⟨hpos, hi⟩]
    · rw [if_neg hi, if_neg fun hc => hi hc.2]
  · next hneg =>
    rw [if_neg fun hc => hneg hc.1]

theorem runOp_sampleCount (engine : List ℚ → List ℚ) (s : PSDState)
    (op : Op) : (runOp engine s op).sampleCount = s.sampleCount := by
  cases op with
  | clearOp => rfl
  | computeOp samples => exact computeSegment_sampleCount engine s samples
  | resultOp =>
    show (PSD.getResult s).sampleCount = s.sampleCount
    unfold PSD.getResult
    split <;> rfl

theorem runOp_bins_beyond (engine : List ℚ → List ℚ) (s : PSDState)
    (op : Op) (i : Nat) (hi : s.sampleCount ≤ i) :
    (runOp engine s op).bins i = s.bins i := by
  cases op with
  | clearOp =>
    show (PSD.clear s).bins i = s.bins i
    rw [clear_bins, if_neg (by omega)]
  | computeOp samples =>
    show (PSD.computeSegment engine s samples).bins i = s.bins i
    rw [computeSegment_bins, if_neg (by omega)]
    unfold preAccum
    split
    · rw [clear_bins, if_neg (by omega)]
    · rfl
  | resultOp =>
    show (PSD.getResult s).bins i = s.bins i
    rw [getResult_bins, if_neg fun hc => by omega]

def w10state : PSDState :=
  { sampleCount := 1, sampleFrequency := 1, segmentCount := 0, bins := fun _ => 7 }

def w10ops : List Op :=
  [Op.clearOp, Op.computeOp (fun _ => 5), Op.resultOp]

/-- C10: under an active configuration, every sequence of `clear`,
`computeSegment` and `getResult` calls loops only over indices
`[0, sampleCount)`: accumulator entries at indices `≥ sampleCount` are
never written (they keep their old values), and the configured
`sampleCount` itself is preserved by the whole sequence. -/
theorem bins_beyond_sampleCount_never_written (engine : List ℚ → List ℚ)
    (ops : List Op) (s : PSDState) (i : Nat) (hi : s.sampleCount ≤ i) :
    (runOps engine s ops).bins i = s.bins i
      ∧ (runOps engine s ops).sampleCount = s.sampleCount := by
  induction ops generalizing s with
  | nil => exact ⟨rfl, rfl⟩
  | cons op rest ih =>
    have h1 := runOp_sampleCount engine s op
    have h2 := ih (runOp engine s op) (by rw [h1]; exact hi)
    refine ⟨?_, ?_⟩
    · show (runOps engine (runOp engine s op) rest).bins i = s.bins i
      rw [h2.1, runOp_bins_beyond engine s op i hi]
    · show (runOps engine (runOp engine s op) rest).sampleCount
        = s.sampleCount
      rw [h2.2, h1]

theorem bins_beyond_sampleCount_never_written_witness :
    w10state.sampleCount ≤ 1
      ∧ (runOps idEngine w10state w10ops).bins 1 = w10state.bins 1
      ∧ (runOps idEngine w10state w10ops).sampleCount
          = w10state.sampleCount :=
  ⟨by decide,
   (bins_beyond_sampleCount_never_written idEngine w10ops w10state 1
     (by decide)).1,
   (bins_beyond_sampleCount_never_written idEngine w10ops w10state 1
     (by decide)).2⟩

/-- The contribution of one segment of `samples` to bin `i` under a
configuration with frequency `sf` and length `sc`. -/
def segContrib (engine : List ℚ → List ℚ) (sf sc : Nat)
    (samples : Nat → ℤ) (i : Nat) : ℚ :=
  PSD.binPower sf sc
    ((engine (PSD.dcValues samples (getAverage samples sc) sc)).getD i 0) i

/-- After `j + 1` `computeSegment` calls with the same segment from an
idle state, the configuration is unchanged, the counter is `j + 1`, each
of the first `sampleCount` bins holds `j + 1` times the segment's
contribution, and the bins beyond are untouched. -/
theorem iterate_computeSegment_spec (engine : List ℚ → List ℚ)
    (samples : Nat → ℤ) (s : PSDState) (h0 : s.segmentCount = 0) (j : Nat) :
    (((fun t => PSD.computeSegment engine t samples)^[j + 1] s).sampleCount
        = s.sampleCount)
    ∧ (((fun t => PSD.computeSegment engine t samples)^[j + 1] s).sampleFrequency
        = s.sampleFrequency)
    ∧ (((fun t => PSD.computeSegment engine t samples)^[j + 1] s).segmentCount
        = j + 1)
    ∧ ∀ i, ((fun t => PSD.computeSegment engine t samples)^[j + 1] s).bins i
        = if i < s.sampleCount then
            ((j : ℚ) + 1)
              * segContrib engine s.sampleFrequency s.sampleCount samples i
          else s.bins i := by
  induction j with
  | zero =>
    rw [Function.iterate_one]
    refine ⟨computeSegment_sampleCount engine s samples,
      computeSegment_sampleFrequency engine s samples, ?_, ?_⟩
    · rw [computeSegment_segmentCount, h0]
    · intro i
      rw [computeSegment_bins]
      by_cases hi : i < s.sampleCount
      · rw [if_pos hi, if_pos hi]
        unfold preAccum
        rw [if_pos h0, clear_bins, if_pos hi, zero_add]
        simp only [Nat.cast_zero, zero_add, one_mul]
        rfl
      · rw [if_neg hi, if_neg hi]
        unfold preAccum
        rw [if_pos h0, clear_bins, if_neg hi]
  | succ j ih =>
    rw [Function.iterate_succ_apply']
    obtain ⟨hc, hf, hcnt, hbins⟩ := ih
    refine ⟨?_, ?_, ?_, ?_⟩
    · rw [computeSegment_sampleCount, hc]
    · rw [computeSegment_sampleFrequency, hf]
    · rw [computeSegment_segmentCount, hcnt]
    · intro i
      rw [computeSegment_bins]
      have hpre : preAccum ((fun t => PSD.computeSegment engine t samples)^[j + 1] s)
          = (fun t => PSD.computeSegment engine t samples)^[j + 1] s := by
        unfold preAccum
        rw [if_neg (by omega)]
      rw [hpre, hc, hf]
      by_cases hi : i < s.sampleCount
      · rw [if_pos hi, hbins i, if_pos hi, if_pos hi]
        show ((j : ℚ) + 1) * segContrib engine s.sampleFrequency s.sampleCount samples i
            + segContrib engine s.sampleFrequency s.sampleCount samples i = _
        push_cast
        ring
      · rw [if_neg hi, hbins i, if_neg hi, if_neg hi]

def w7state : PSDState :=
  { sampleCount := 1, sampleFrequency := 1, segmentCount := 0, bins := fun _ => 0 }

def w7samples : Nat → ℤ := fun _ => 5

/-- C7: starting from an idle estimator with a valid configuration,
performing `k ≥ 1` `computeSegment` calls with one and the same segment
followed by `getResult` yields exactly the same bin values as a single
`computeSegment` with that segment followed by `getResult`: averaging `k`
identical contributions reproduces the single-segment spectrum. -/
theorem repeated_identical_segments (engine : List ℚ → List ℚ)
    (s : PSDState) (samples : Nat → ℤ) (k i : Nat)
    (hidle : s.segmentCount = 0) (hsc : 0 < s.sampleCount)
    (hsf : 0 < s.sampleFrequency) (hk : 1 ≤ k) :
    (PSD.getResult
        ((fun t => PSD.computeSegment engine t samples)^[k] s)).bins i
      = (PSD.getResult (PSD.computeSegment engine s samples)).bins i := by
  obtain ⟨j, rfl⟩ : ∃ j, k = j + 1 := ⟨k - 1, by omega⟩
  obtain ⟨hc, hf, hcnt, hbins⟩ :=
    iterate_computeSegment_spec engine samples s hidle j
  obtain ⟨hc0, hf0, hcnt0, hbins0⟩ :=
    iterate_computeSegment_spec engine samples s hidle 0
  have hone : (fun t => PSD.computeSegment engine t samples)^[0 + 1] s
      = PSD.computeSegment engine s samples := by
    show (fun t => PSD.computeSegment engine t samples)^[1] s
        = PSD.computeSegment engine s samples
    rw [Function.iterate_one]
  rw [← hone, getResult_bins, getResult_bins, hcnt, hc, hcnt0, hc0]
  by_cases hi : i < s.sampleCount
  · rw [if_pos ⟨by omega, hi⟩, if_pos ⟨by omega, hi⟩, hbins i, hbins0 i,
      if_pos hi, if_pos hi]
    have hnz : ((j : ℚ) + 1) ≠ 0 := by positivity
    push_cast
    rw [mul_div_cancel_left₀ _ hnz]
    norm_num
  · rw [if_neg fun hcon => hi hcon.2, if_neg fun hcon => hi hcon.2,
      hbins i, hbins0 i, if_neg hi, if_neg hi]

theorem repeated_identical_segments_witness :
    w7state.segmentCount = 0 ∧ 0 < w7state.sampleCount
      ∧ 0 < w7state.sampleFrequency ∧ 1 ≤ 2
      ∧ (PSD.getResult
            ((fun t => PSD.computeSegment idEngine t w7samples)^[2] w7state)).bins 0
          = (PSD.getResult
              (PSD.computeSegment idEngine w7state w7samples)).bins 0 :=
  ⟨rfl, by decide, by decide, by decide,
    repeated_identical_segments idEngine w7state w7samples 2 0 rfl
      (by decide) (by decide) (by decide)⟩

end Measurements
